import Mathlib

/-!
Verification of the aircraft state tracking and projection core of the
ADS-B radar display (`src/radar/aircraft.py`, `src/radar/utils.py`).

The Python code is shallowly embedded:
* JSON-ish raw telemetry records become a structure of `Option` fields
  (`none` models an absent key); Python truthiness of a numeric field
  (`None` and `0`/`0.0` are falsy) is `truthyQ`, of a string field
  (`None` and `""` are falsy) the `pyOrS`/`pyOrStr` chains.  Numeric JSON
  values are modelled as rationals.
* A Python `dict` becomes an insertion-ordered association list
  (`Dict α`); `dictSet` is item assignment (replace in place or append),
  `dictPop` is `pop(k, None)`, `dictDel` is `del d[k]` (`none` models the
  `KeyError` on a missing key).  CPython dict keys are unique.
* `collections.deque(maxlen=m)` becomes a list that drops from the front
  on append past `m` (`dequeAppend`).
* `time.time()` becomes an explicit `now : ℚ` argument.
* Tk canvas item handles are opaque naturals; canvas side effects carry
  no registry-visible state and are dropped.
-/

/-- Python truthiness of an optional numeric value: absent, `0` and `0.0`
are falsy. -/
def truthyQ : Option ℚ → Bool
  | none => false
  | some q => q != 0

/-- Python `a or b` on optional numerics (`a` falsy when absent or zero). -/
def pyOr (a b : Option ℚ) : Option ℚ :=
  match a with
  | some q => if q = 0 then b else some q
  | none => b

/-- Python `a or b` on optional strings (`a` falsy when absent or empty). -/
def pyOrS (a b : Option String) : Option String :=
  match a with
  | some s => if s = "" then b else some s
  | none => b

/-- Python `a or b` where `b` is a plain (non-optional) string. -/
def pyOrStr (a : Option String) (b : String) : String :=
  match a with
  | some s => if s = "" then b else s
  | none => b

/-- A raw telemetry record (one JSON object of the polled snapshot).
Only the keys read by `aircraft.py` are modelled; an absent key is
`none`.  `id` stands for `str(ac.get("id", ""))`: the already-stringified
synthetic identifier. -/
structure RawRecord where
  hex : Option String := none
  icao24 : Option String := none
  flight : Option String := none
  callsign : Option String := none
  reg : Option String := none
  registration : Option String := none
  category : Option String := none
  lat : Option ℚ := none
  lon : Option ℚ := none
  altitude : Option ℚ := none
  alt_baro : Option ℚ := none
  alt_geom : Option ℚ := none
  alt : Option ℚ := none
  speed : Option ℚ := none
  groundspeed : Option ℚ := none
  gs : Option ℚ := none
  spd : Option ℚ := none
  track : Option ℚ := none
  heading : Option ℚ := none
  vert_rate : Option ℚ := none
  seen : Option ℚ := none
  seen_pos : Option ℚ := none
  id : Option String := none
  deriving DecidableEq

/-- `str(ac.get("id", ""))`: the synthetic identifier, stringified, with
`""` when the key is absent. -/
def RawRecord.idStr (r : RawRecord) : String := r.id.getD ""

/-- One tracked aircraft (`class Aircraft`).  The trail holds
`(screen_x, screen_y, altitude)` samples, oldest first; `max_trails` is
the deque's `maxlen`. -/
structure Aircraft where
  hex : String
  callsign : String
  registration : String
  category : String
  lat : Option ℚ
  lon : Option ℚ
  altitude : Option ℚ
  speed : ℚ
  track : ℚ
  vert_rate : ℚ
  last_seen : ℚ
  last_behavior : ℚ
  distance_km : ℚ
  bearing_deg : ℚ
  trail : List (ℚ × ℚ × Option ℚ)
  max_trails : ℕ
  deriving DecidableEq

/-- `Aircraft.update_from_raw` (aircraft.py lines 426-435): overwrite the
kinematic snapshot with Python `or`-chained field aliases and stamp
`last_behavior` with the current wall clock, unconditionally. -/
def Aircraft.update_from_raw (ac : Aircraft) (raw : RawRecord) (now : ℚ) : Aircraft :=
  { ac with
    lat := raw.lat
    lon := raw.lon
    altitude := pyOr (pyOr (pyOr raw.altitude raw.alt_baro) raw.alt_geom) raw.alt
    speed := (pyOr (pyOr (pyOr raw.speed raw.groundspeed) raw.gs) raw.spd).getD 0
    track := (pyOr raw.track raw.heading).getD 0
    vert_rate := raw.vert_rate.getD 0
    last_seen := (pyOr raw.seen raw.seen_pos).getD 0
    last_behavior := now }

/-- The metadata/default part of `Aircraft.__init__` (aircraft.py lines
410-421) before `update_from_raw` fills the kinematic fields: display
metadata from the creating record, zeroed derived values, an empty trail
of capacity `max_trails`. -/
def Aircraft.initBase (hexid : String) (raw : RawRecord) (max_trails : ℕ) : Aircraft where
  hex := hexid
  callsign := (pyOrS raw.flight raw.callsign).getD ""
  registration := (pyOrS raw.reg raw.registration).getD ""
  category := ((raw.category).getD "").toUpper
  lat := none
  lon := none
  altitude := none
  speed := 0
  track := 0
  vert_rate := 0
  last_seen := 0
  last_behavior := 0
  distance_km := 0
  bearing_deg := 0
  trail := []
  max_trails := max_trails

/-- `Aircraft.__init__`: metadata, then `update_from_raw(raw)`, with
derived values zeroed and an empty bounded trail. -/
def Aircraft.init (hexid : String) (raw : RawRecord) (max_trails : ℕ) (now : ℚ) : Aircraft :=
  (Aircraft.initBase hexid raw max_trails).update_from_raw raw now

/-- `deque(maxlen=m).append(x)`: append and drop from the front past the
capacity. -/
def dequeAppend (maxlen : ℕ) (t : List α) (x : α) : List α :=
  let grown := t ++ [x]
  grown.drop (grown.length - maxlen)

/-- `Aircraft.update_trail` (aircraft.py lines 442-444): push
`(x, y, altitude)` into the bounded trail. -/
def Aircraft.update_trail (ac : Aircraft) (x y : ℚ) : Aircraft :=
  { ac with trail := dequeAppend ac.max_trails ac.trail (x, y, ac.altitude) }

/-- `Aircraft.set_max_trails` (aircraft.py lines 423-424):
`deque(self.trail, maxlen=m)` keeps the most recent `m` points. -/
def Aircraft.set_max_trails (ac : Aircraft) (m : ℕ) : Aircraft :=
  { ac with trail := ac.trail.drop (ac.trail.length - m), max_trails := m }

/-- Insertion-ordered association list modelling a Python `dict` with
string keys. -/
abbrev Dict (α : Type) := List (String × α)

/-- `d[k]` as an option (also `k in d` via `isSome`): first binding wins. -/
def dictGet : Dict α → String → Option α
  | [], _ => none
  | (k', v) :: rest, k => if k' = k then some v else dictGet rest k

/-- `d[k] = v`: replace the binding in place, or append a fresh one. -/
def dictSet : Dict α → String → α → Dict α
  | [], k, v => [(k, v)]
  | (k', v') :: rest, k, v =>
    if k' = k then (k, v) :: rest else (k', v') :: dictSet rest k v

/-- `d.pop(k, None)`: drop the binding when present. -/
def dictPop : Dict α → String → Dict α
  | [], _ => []
  | (k', v') :: rest, k => if k' = k then rest else (k', v') :: dictPop rest k

/-- `del d[k]`: `none` models the `KeyError` on an absent key. -/
def dictDel : Dict α → String → Option (Dict α)
  | [], _ => none
  | (k', v') :: rest, k =>
    if k' = k then some rest else (dictDel rest k).map ((k', v') :: ·)

/-- The key view of a dict. -/
def dictKeys (d : Dict α) : List String := d.map Prod.fst

/-- The registry and its renderer-side bookkeeping (`class Aircrafts`).
Canvas item handles are opaque naturals; `aircraft_canvas_items` maps an
aircraft to its per-aircraft item dict. -/
structure Aircrafts where
  aircrafts : Dict Aircraft
  canvas_ids : Dict ℕ
  aircraft_canvas_items : Dict (Dict ℕ)
  aircraft_trails : Dict ℕ
  prediction_lines : Dict ℕ
  label_leaders : Dict ℕ
  deriving DecidableEq

/-- `Aircrafts.__init__`: all maps empty. -/
def emptyAircrafts : Aircrafts :=
  ⟨[], [], [], [], [], []⟩

/-- Identity resolution in `update_aircrafts` (aircraft.py line 69):
`ac.get("hex") or ac.get("icao24") or ac.get("flight") or str(ac.get("id", ""))`. -/
def resolveId (ac : RawRecord) : String :=
  pyOrStr (pyOrS (pyOrS ac.hex ac.icao24) ac.flight) ac.idStr

/-- The body of the `for ac in data` loop of `Aircrafts.update_aircrafts`
(aircraft.py lines 65-75): skip records without truthy lat and lon,
update the tracked aircraft in place or create a fresh one. -/
def ingestStep (max_trails : ℕ) (now : ℚ) (d : Dict Aircraft) (ac : RawRecord) : Dict Aircraft :=
  if !(truthyQ ac.lat && truthyQ ac.lon) then d
  else
    let hexid := resolveId ac
    match dictGet d hexid with
    | some plane => dictSet d hexid (plane.update_from_raw ac now)
    | none => dictSet d hexid (Aircraft.init hexid ac max_trails now)

/-- The `self.aircrafts` effect of `Aircrafts.update_aircrafts`. -/
def ingestDict (max_trails : ℕ) (now : ℚ) (d : Dict Aircraft) (data : List RawRecord) : Dict Aircraft :=
  data.foldl (ingestStep max_trails now) d

/-- `Aircrafts.update_aircrafts` (aircraft.py lines 63-75); only
`self.aircrafts` is touched. -/
def update_aircrafts (st : Aircrafts) (data : List RawRecord) (max_trails : ℕ) (now : ℚ) : Aircrafts :=
  { st with aircrafts := ingestDict max_trails now st.aircrafts data }

/-- The per-aircraft eviction test of `Aircrafts.clean_data` (aircraft.py
lines 88-110), in source order: missing coordinates, no behavior change
for over 60 s, outside radar range, raw `last_seen` above 60.  The
`isinstance` guard on `last_seen` always passes here because numeric JSON
fields are modelled as rationals. -/
def evictB (now max_range : ℚ) (ac : Aircraft) : Bool :=
  if ac.lat.isNone || ac.lon.isNone then true
  else if now - ac.last_behavior > 60 then true
  else if ac.distance_km > max_range then true
  else if ac.last_seen > 60 then true
  else false

/-- The `to_delete` list built by `Aircrafts.clean_data` (aircraft.py
lines 79-110): canvas-item ids with no tracked aircraft, then tracked
ids meeting an eviction condition. -/
def cleanToDelete (st : Aircrafts) (now max_range : ℚ) : List String :=
  let current_hex := dictKeys st.aircrafts
  let existing_hex := dictKeys st.aircraft_canvas_items
  existing_hex.filter (fun h => !(current_hex.contains h))
    ++ (st.aircrafts.filter (fun p => evictB now max_range p.2)).map Prod.fst

/-- The per-id body of the deletion loop of `Aircrafts.clean_data`
(aircraft.py lines 112-141): pop every renderer-side map, then
`del self.aircrafts[hexid]` (which raises on a missing key — `none`
discards the whole pass, which is adequate because no claim observes the
partially-mutated state a raised `KeyError` would leave behind). -/
def deleteOne (s : Aircrafts) (h : String) : Option Aircrafts :=
  (dictDel s.aircrafts h).map (fun d =>
    { s with
      aircrafts := d
      aircraft_canvas_items := dictPop s.aircraft_canvas_items h
      aircraft_trails := dictPop s.aircraft_trails h
      prediction_lines := dictPop s.prediction_lines h
      canvas_ids := dictPop s.canvas_ids h
      label_leaders := dictPop s.label_leaders h })

/-- `Aircrafts.clean_data` (aircraft.py lines 77-141).  Canvas deletions
are side effects with no registry-visible state; `none` models an
uncaught `KeyError` from the final `del`. -/
def clean_data (st : Aircrafts) (now max_range : ℚ) : Option Aircrafts :=
  (cleanToDelete st now max_range).foldl
    (fun acc h => acc.bind (fun s => deleteOne s h)) (some st)

/-- The spec's concrete raw snapshot record
`{hex:"A1", lat:48.0, lon:2.0, altitude:10000}`. -/
def recA1 : RawRecord :=
  { hex := some "A1", lat := some 48, lon := some 2, altitude := some 10000 }

/-- A record with a determinable identity whose `lat` is present but
whose `lon` is absent. -/
def recLatOnly : RawRecord := { hex := some "B1", lat := some 48 }

/-- A record with a position but no identity field at all. -/
def recNoId : RawRecord := { lat := some 48, lon := some 2 }

/-- The last `n` elements of a list (the retained window of a
`deque(maxlen=n)`), oldest first. -/
def lastN (n : ℕ) (l : List α) : List α := l.drop (l.length - n)

/-- The fields of an `Aircraft` that `update_from_raw` never writes:
identity, display metadata, derived values, trail and capacity. -/
def persist (a : Aircraft) :
    String × String × String × String × ℚ × ℚ × List (ℚ × ℚ × Option ℚ) × ℕ :=
  (a.hex, a.callsign, a.registration, a.category, a.distance_km, a.bearing_deg,
    a.trail, a.max_trails)

/-- Every field of an `Aircraft` except the `last_behavior` wall-clock
stamp, for comparing entities up to the behavior timestamp. -/
def exceptLastBehavior (a : Aircraft) :
    String × String × String × String × Option ℚ × Option ℚ × Option ℚ × ℚ × ℚ × ℚ ×
      ℚ × ℚ × ℚ × List (ℚ × ℚ × Option ℚ) × ℕ :=
  (a.hex, a.callsign, a.registration, a.category, a.lat, a.lon, a.altitude, a.speed,
    a.track, a.vert_rate, a.last_seen, a.distance_km, a.bearing_deg, a.trail, a.max_trails)

/-- The records of a snapshot that survive the lat/lon filter and resolve
to identity `k`, in order. -/
def keptFor (k : String) (data : List RawRecord) : List RawRecord :=
  data.filter (fun r => truthyQ r.lat && truthyQ r.lon && (resolveId r == k))

/-- The first present, non-empty string among candidates, else the
default. -/
def firstNonEmptyStr : List (Option String) → String → String
  | [], dflt => dflt
  | o :: rest, dflt =>
    match o with
    | some s => if s = "" then firstNonEmptyStr rest dflt else s
    | none => firstNonEmptyStr rest dflt

/-- First-non-empty identity resolution as the spec words it: the first
non-empty of hex, icao24, flight-callsign, else the synthetic id. -/
def resolveIdSpec (r : RawRecord) : String :=
  firstNonEmptyStr [r.hex, r.icao24, r.flight] r.idStr

/-- `math.radians`: degrees to radians. -/
noncomputable def radiansR (x : ℝ) : ℝ := x * (Real.pi / 180)

/-- `Utils.haversine_km` (utils.py lines 14-20): great-circle distance in
kilometers with mean Earth radius 6371.0 km.  Python floats are modelled
as reals. -/
noncomputable def haversine_km (lat1 lon1 lat2 lon2 : ℝ) : ℝ :=
  let R : ℝ := 6371.0
  let dlat := radiansR (lat2 - lat1)
  let dlon := radiansR (lon2 - lon1)
  let a := Real.sin (dlat / 2) ^ 2 +
    Real.cos (radiansR lat1) * Real.cos (radiansR lat2) * Real.sin (dlon / 2) ^ 2
  2 * R * Real.arcsin (Real.sqrt a)

/-- The haversine distance exactly as the spec words it:
`sin²(Δlat/2) + cos(lat1)cos(lat2)sin²(Δlon/2)`, `2·R·asin(√a)`,
`R = 6371.0`. -/
noncomputable def haversineSpec (lat1 lon1 lat2 lon2 : ℝ) : ℝ :=
  2 * 6371.0 * Real.arcsin (Real.sqrt
    (Real.sin (radiansR (lat2 - lat1) / 2) ^ 2 +
      Real.cos (radiansR lat1) * Real.cos (radiansR lat2) *
        Real.sin (radiansR (lon2 - lon1) / 2) ^ 2))

/-- `Utils.km_to_pixels` (utils.py lines 72-81): km to canvas pixels; the
division by the range happens only on the `max_range > 0` branch. -/
def km_to_pixels (canvas_width canvas_height max_range km : ℚ) : ℚ :=
  let margin : ℚ := 10
  let radius_px := min canvas_width canvas_height / 2 - margin
  if max_range > 0 then
    let effective_range := max_range
    let px_per_km := radius_px / effective_range
    km * px_per_km
  else
    km * radius_px

/-- Python `int()` on a float: truncation toward zero. -/
noncomputable def pyInt (x : ℝ) : ℤ := if 0 ≤ x then ⌊x⌋ else ⌈x⌉

/-- `Utils.compute_zoom` (utils.py lines 35-57): tile zoom from latitude,
radar range and canvas width; the canvas width is clamped to at least one
pixel and the latitude cosine to at least 0.01 before the divisions. -/
noncomputable def compute_zoom (lat max_range width : ℝ) : ℤ :=
  let width_px := max width 1
  let target_mpp := (max_range * 2 * 1000) / width_px
  let cos_lat := Real.cos (radiansR lat)
  let cos_lat := if cos_lat < 0.01 then 0.01 else cos_lat
  pyInt (Real.logb 2 ((156543.03392 * cos_lat) / target_mpp))

/-- The direction/distance computation of the overlapping-pair body of
`Utils.relax_label_positions` (utils.py lines 206-217): the
center-to-center vector and its length, with the fixed jitter fallback
`(1.0, 0.5)` when the centers (nearly) coincide.  Returns
`(dx, dy, dist)`; `dist` is the subsequent normalization divisor. -/
noncomputable def relax_push_direction (acx acy bcx bcy : ℝ) : ℝ × ℝ × ℝ :=
  let dx := bcx - acx
  let dy := bcy - acy
  let dist := Real.sqrt (dx ^ 2 + dy ^ 2)
  if dist < 1e-3 then
    let dx : ℝ := 1.0
    let dy : ℝ := 0.5
    let dist := Real.sqrt (dx ^ 2 + dy ^ 2)
    (dx, dy, dist)
  else
    (dx, dy, dist)

/-- One candidate offset of the spiral generator: a ring point at the
given radius and angle index, with `round` on each coordinate. -/
noncomputable def spiral_offset_point (radius : ℝ) (angle_steps : ℕ) (a : ℕ) : ℤ × ℤ :=
  let ang := (2 * Real.pi * a) / angle_steps
  (round (radius * Real.cos ang), round (radius * Real.sin ang))

/-- The ordered candidate list of `generate_spiral_offsets` before
deduplication (utils.py lines 124-131): the default offset `(10, 10)`
first, then `radial_steps` concentric rings of `angle_steps` points with
radius `(max_radius / radial_steps) * r_step`. -/
noncomputable def spiral_candidates (max_radius : ℝ) (angle_steps radial_steps : ℕ) :
    List (ℤ × ℤ) :=
  ((10, 10) : ℤ × ℤ) ::
    (List.range radial_steps).flatMap (fun i =>
      (List.range angle_steps).map
        (spiral_offset_point ((max_radius / (radial_steps : ℝ)) * ((i : ℝ) + 1)) angle_steps))

/-- The seen-set deduplication loop of `generate_spiral_offsets`
(utils.py lines 133-139): keep the first occurrence of each element,
preserving order. -/
def pyDedupAux [DecidableEq α] (seen : List α) : List α → List α
  | [] => []
  | x :: xs => if x ∈ seen then pyDedupAux seen xs else x :: pyDedupAux (x :: seen) xs

/-- Order-preserving deduplication starting from an empty seen set. -/
def pyDedup [DecidableEq α] (l : List α) : List α := pyDedupAux [] l

/-- `Utils.generate_spiral_offsets` / `Aircrafts.generate_spiral_offsets`
(identical bodies, utils.py lines 118-139 and aircraft.py lines 181-202):
the deduplicated candidate list. -/
noncomputable def generate_spiral_offsets (max_radius : ℝ) (angle_steps radial_steps : ℕ) :
    List (ℤ × ℤ) :=
  pyDedup (spiral_candidates max_radius angle_steps radial_steps)

/-- Euclidean length of an integer offset, as a real. -/
noncomputable def ptNorm (p : ℤ × ℤ) : ℝ :=
  Real.sqrt ((p.1 : ℝ) ^ 2 + (p.2 : ℝ) ^ 2)

/-- The entity created from `recA1` at `t = 0`. -/
def acA1 : Aircraft := Aircraft.init "A1" recA1 100 0

/-- The same entity re-fed the identical record at `t = 5`. -/
def acA1upd : Aircraft := acA1.update_from_raw recA1 5

/-- `acA1` with only the forwarded `last_seen` diagnostic changed. -/
def acSeen100 : Aircraft := { acA1 with last_seen := 100 }

/-- A single-entity registry around a given aircraft. -/
def singleReg (k : String) (ac : Aircraft) : Aircrafts :=
  { emptyAircrafts with aircrafts := [(k, ac)] }

/-- An entity with trail capacity 3 for the trail-invariant witness. -/
def acW : Aircraft := Aircraft.init "W" recA1 3 0

/-- A registry whose only entity also owns renderer-side canvas items. -/
def stRendered : Aircrafts :=
  { emptyAircrafts with
    aircrafts := [("A1", acA1)]
    aircraft_canvas_items := [("A1", [("outer", 1), ("inner", 2), ("vector", 3), ("label", 4)])]
    canvas_ids := [("A1", 1)] }

/-- The net effect of one ingest pass on the entity stored at key `k`,
given the records of the snapshot that resolve to `k`: untouched when no
record does, otherwise the existing entity (or a fresh one built from the
first such record) updated by each record in turn. -/
def ingestOutcome (mt : ℕ) (now : ℚ) (base : Option Aircraft) (k : String) :
    List RawRecord → Option Aircraft
  | [] => base
  | r₀ :: rs =>
    some (rs.foldl (fun a r => a.update_from_raw r now)
      (match base with
       | some e => e.update_from_raw r₀ now
       | none => Aircraft.init k r₀ mt now))

@[simp] theorem dictKeys_nil : dictKeys ([] : Dict α) = [] := rfl

@[simp] theorem dictKeys_cons (k : String) (v : α) (d : Dict α) :
    dictKeys ((k, v) :: d) = k :: dictKeys d := rfl

theorem dictGet_set_self (d : Dict α) (k : String) (v : α) :
    dictGet (dictSet d k v) k = some v := by
  induction d with
  | nil => simp [dictSet, dictGet]
  | cons p rest ih =>
    obtain ⟨k', v'⟩ := p
    by_cases h : k' = k
    · subst h; simp [dictSet, dictGet]
    · simp [dictSet, dictGet, h, ih]

theorem dictGet_set_ne (d : Dict α) {k j : String} (v : α) (h : j ≠ k) :
    dictGet (dictSet d k v) j = dictGet d j := by
  have hkj : k ≠ j := fun hh => h hh.symm
  induction d with
  | nil => simp [dictSet, dictGet, hkj]
  | cons p rest ih =>
    obtain ⟨k', v'⟩ := p
    by_cases hk : k' = k
    · subst hk
      simp [dictSet, dictGet, hkj]
    · simp only [dictSet, if_neg hk, dictGet]
      by_cases hj : k' = j
      · rw [if_pos hj, if_pos hj]
      · rw [if_neg hj, if_neg hj, ih]

theorem dictGet_eq_none_iff (d : Dict α) (k : String) :
    dictGet d k = none ↔ k ∉ dictKeys d := by
  induction d with
  | nil => simp [dictGet]
  | cons p rest ih =>
    obtain ⟨k', v'⟩ := p
    by_cases h : k' = k
    · subst h; simp [dictGet]
    · have h' : k ≠ k' := fun hh => h hh.symm
      simp [dictGet, h, h', ih]

theorem dictKeys_set_of_mem (d : Dict α) {k : String} (v : α) (h : k ∈ dictKeys d) :
    dictKeys (dictSet d k v) = dictKeys d := by
  induction d with
  | nil => simp at h
  | cons p rest ih =>
    obtain ⟨k', v'⟩ := p
    by_cases hk : k' = k
    · subst hk; simp [dictSet]
    · have hmem : k ∈ dictKeys rest := by
        rcases List.mem_cons.mp (by simpa using h) with h1 | h1
        · exact absurd h1.symm hk
        · exact h1
      simp [dictSet, hk, ih hmem]

theorem dictKeys_set_of_not_mem (d : Dict α) {k : String} (v : α) (h : k ∉ dictKeys d) :
    dictKeys (dictSet d k v) = dictKeys d ++ [k] := by
  induction d with
  | nil => simp [dictSet]
  | cons p rest ih =>
    obtain ⟨k', v'⟩ := p
    have hne : k' ≠ k := by
      intro hh; exact h (by simp [hh])
    have hrest : k ∉ dictKeys rest := by
      intro hh; exact h (by simp [hh])
    simp [dictSet, hne, ih hrest]

theorem dict_ext (d₁ d₂ : Dict α) (hk : dictKeys d₁ = dictKeys d₂)
    (hnd : (dictKeys d₁).Nodup) (hget : ∀ k, dictGet d₁ k = dictGet d₂ k) :
    d₁ = d₂ := by
  induction d₁ generalizing d₂ with
  | nil =>
    cases d₂ with
    | nil => rfl
    | cons p rest => simp [dictKeys] at hk
  | cons p rest ih =>
    obtain ⟨k, v⟩ := p
    cases d₂ with
    | nil => simp [dictKeys] at hk
    | cons q rest₂ =>
      obtain ⟨k₂, v₂⟩ := q
      have hkk : k = k₂ ∧ dictKeys rest = dictKeys rest₂ := by
        simpa using hk
      obtain ⟨rfl, hkeys⟩ := hkk
      have hv : v = v₂ := by
        have := hget k
        simpa [dictGet] using this
      subst hv
      have hnd' := List.nodup_cons.mp (by simpa using hnd)
      have hknotin : k ∉ dictKeys rest := hnd'.1
      have hndrest : (dictKeys rest).Nodup := hnd'.2
      have hgetrest : ∀ j, dictGet rest j = dictGet rest₂ j := by
        intro j
        by_cases hj : k = j
        · subst hj
          have h1 : dictGet rest k = none := (dictGet_eq_none_iff rest k).mpr hknotin
          have h2 : dictGet rest₂ k = none := by
            rw [dictGet_eq_none_iff, ← hkeys]; exact hknotin
          rw [h1, h2]
        · have := hget j
          simpa [dictGet, hj] using this
      rw [ih rest₂ hkeys hndrest hgetrest]

theorem dictDel_isSome (d : Dict α) (k : String) (h : k ∈ dictKeys d) :
    (dictDel d k).isSome := by
  induction d with
  | nil => simp at h
  | cons p rest ih =>
    obtain ⟨k', v'⟩ := p
    by_cases hk : k' = k
    · simp [dictDel, hk]
    · have hmem : k ∈ dictKeys rest := by
        rcases List.mem_cons.mp (by simpa using h) with h1 | h1
        · exact absurd h1.symm hk
        · exact h1
      have := ih hmem
      cases hd : dictDel rest k with
      | none => rw [hd] at this; simp at this
      | some d' => simp [dictDel, hk, hd]

theorem dictKeys_dictDel (d d' : Dict α) (k : String) (h : dictDel d k = some d') :
    dictKeys d' = (dictKeys d).erase k := by
  induction d generalizing d' with
  | nil => simp [dictDel] at h
  | cons p rest ih =>
    obtain ⟨k', v'⟩ := p
    by_cases hk : k' = k
    · subst hk
      have : some rest = some d' := by simpa [dictDel] using h
      obtain rfl : rest = d' := Option.some.inj this
      simp [List.erase_cons_head]
    · simp only [dictDel, if_neg hk] at h
      cases hd : dictDel rest k with
      | none => rw [hd] at h; simp at h
      | some r' =>
        rw [hd] at h
        have : (k', v') :: r' = d' := by simpa using h
        subst this
        have hbeq : ¬ (k' == k) = true := by simpa using hk
        simp [List.erase_cons, hbeq, ih r' hd]

set_option maxRecDepth 8000 in
/-- C1: the first half of the scenario holds, but the second fails: after
ingesting the snapshot `[recA1]` at `t = 0`, then an empty snapshot, and
running eviction at `t = 1`, the registry still holds `"A1"` — the code
has no went-silent rule, so the claimed zero-entity outcome is false. -/
theorem c1_counterexample :
    ((clean_data (update_aircrafts (update_aircrafts emptyAircrafts [recA1] 100 0) [] 100 1)
        1 200).map (fun s => dictKeys s.aircrafts) = some ["A1"]) ∧
    ¬ ((clean_data (update_aircrafts (update_aircrafts emptyAircrafts [recA1] 100 0) [] 100 1)
        1 200).map (fun s => dictKeys s.aircrafts) = some []) := by
  refine ⟨by with_unfolding_all decide, by with_unfolding_all decide⟩

set_option maxRecDepth 8000 in
/-- C1 (amended): ingesting the snapshot `[recA1]` into an empty registry
yields exactly one entity `"A1"` with altitude 10000; ingesting an empty
snapshot does not remove it — eviction at `t = 1` keeps it, and the
entity disappears only through the staleness rule once more than 60
seconds pass without any ingest refreshing it (eviction at `t = 62`). -/
theorem c1_amended :
    dictKeys (update_aircrafts emptyAircrafts [recA1] 100 0).aircrafts = ["A1"] ∧
    (dictGet (update_aircrafts emptyAircrafts [recA1] 100 0).aircrafts "A1").map
      Aircraft.altitude = some (some 10000) ∧
    (clean_data (update_aircrafts (update_aircrafts emptyAircrafts [recA1] 100 0) [] 100 1)
      1 200).map (fun s => dictKeys s.aircrafts) = some ["A1"] ∧
    (clean_data (update_aircrafts (update_aircrafts emptyAircrafts [recA1] 100 0) [] 100 62)
      62 200).map (fun s => dictKeys s.aircrafts) = some [] := by
  refine ⟨by with_unfolding_all decide, by decide,
    by with_unfolding_all decide, by with_unfolding_all decide⟩

set_option maxRecDepth 8000 in
/-- C2: the claimed drop condition fails on both sides.  `recLatOnly` has
a determinable identity (`hex = "B1"`) and a present `lat` — by the claim
it should be accepted — yet the code drops it because `lon` alone is
falsy; `recNoId` has no identity field at all — by the claim it should be
rejected — yet the code accepts it under the synthetic identity `""`. -/
theorem c2_counterexample :
    recLatOnly.hex = some "B1" ∧ recLatOnly.lat = some 48 ∧ recLatOnly.lon = none ∧
    (update_aircrafts emptyAircrafts [recLatOnly] 100 0).aircrafts = [] ∧
    recNoId.hex = none ∧ recNoId.icao24 = none ∧ recNoId.flight = none ∧ recNoId.id = none ∧
    dictKeys (update_aircrafts emptyAircrafts [recNoId] 100 0).aircrafts = [""] := by
  refine ⟨rfl, rfl, rfl, by decide, rfl, rfl, rfl, rfl, by decide⟩

set_option maxRecDepth 8000 in
/-- C3: updating an entity from the very record that created it — every
kinematic value equal to the stored state — still rewrites
`last_behavior` to the new wall clock (0 becomes 5), so the claimed
"timestamp unchanged when nothing differs" is false. -/
theorem c3_counterexample :
    (acA1upd.lat = acA1.lat ∧ acA1upd.lon = acA1.lon ∧
      acA1upd.altitude = acA1.altitude ∧ acA1upd.speed = acA1.speed ∧
      acA1upd.track = acA1.track ∧ acA1upd.vert_rate = acA1.vert_rate) ∧
    acA1upd.last_behavior ≠ acA1.last_behavior := by
  refine ⟨⟨rfl, rfl, rfl, rfl, rfl, rfl⟩, by decide⟩

/-- C3 (amended): `update_from_raw` unconditionally stamps
`last_behavior` with the current wall clock on every ingest that reaches
the entity, whether or not any kinematic value changed; staleness
therefore measures time since the last ingest mentioning the entity, not
time since the last value change. -/
theorem c3_amended (ac : Aircraft) (raw : RawRecord) (now : ℚ) :
    (ac.update_from_raw raw now).last_behavior = now := rfl

set_option maxRecDepth 8000 in
/-- C7: eviction is not independent of the forwarded `last_seen` field.
`acSeen100` agrees with `acA1` on every field except `last_seen`
(100 versus 0), yet under identical eviction inputs the registry holding
`acA1` keeps its entity while the one holding `acSeen100` loses it. -/
theorem c7_counterexample :
    acSeen100.lat = acA1.lat ∧ acSeen100.lon = acA1.lon ∧
    acSeen100.last_behavior = acA1.last_behavior ∧
    acSeen100.distance_km = acA1.distance_km ∧
    acA1.last_seen = 0 ∧ acSeen100.last_seen = 100 ∧
    (clean_data (singleReg "A1" acA1) 1 200).map (fun s => dictKeys s.aircrafts) =
      some ["A1"] ∧
    (clean_data (singleReg "A1" acSeen100) 1 200).map (fun s => dictKeys s.aircrafts) =
      some [] := by
  refine ⟨rfl, rfl, rfl, rfl, by decide, by decide,
    by with_unfolding_all decide, by with_unfolding_all decide⟩

theorem evictB_eq_true_iff (now mr : ℚ) (ac : Aircraft) :
    evictB now mr ac = true ↔
      (ac.lat.isNone = true ∨ ac.lon.isNone = true ∨ 60 < now - ac.last_behavior ∨
        mr < ac.distance_km ∨ 60 < ac.last_seen) := by
  unfold evictB
  split_ifs with h1 h2 h3 h4 <;> simp_all [Bool.or_eq_true]
  all_goals tauto

set_option maxRecDepth 8000 in
/-- C7 (amended): eviction is driven by the internal wall-clock
`last_behavior` and also by the forwarded raw `last_seen` field: a
single-entity registry loses its entity exactly when coordinates are
missing, more than 60 seconds passed since the last behavior stamp, the
entity is out of range, or the forwarded `last_seen` exceeds 60. -/
theorem c7_amended (k : String) (ac : Aircraft) (now mr : ℚ) :
    (clean_data (singleReg k ac) now mr).map (fun s => dictKeys s.aircrafts) =
      some (if ac.lat.isNone = true ∨ ac.lon.isNone = true ∨ 60 < now - ac.last_behavior ∨
          mr < ac.distance_km ∨ 60 < ac.last_seen then [] else [k]) := by
  by_cases hc : (ac.lat.isNone = true ∨ ac.lon.isNone = true ∨ 60 < now - ac.last_behavior ∨
      mr < ac.distance_km ∨ 60 < ac.last_seen)
  · have hb : evictB now mr ac = true := (evictB_eq_true_iff now mr ac).mpr hc
    rw [if_pos hc]
    simp [clean_data, cleanToDelete, singleReg, emptyAircrafts, deleteOne, dictDel, dictPop, hb]
  · have hb : evictB now mr ac = false := by
      rcases Bool.eq_false_or_eq_true (evictB now mr ac) with h | h
      · exact absurd ((evictB_eq_true_iff now mr ac).mp h) hc
      · exact h
    rw [if_neg hc]
    simp [clean_data, cleanToDelete, singleReg, emptyAircrafts, hb]

set_option maxRecDepth 8000 in
/-- C2 (amended): a record is dropped exactly when `lat` or `lon` is
missing or falsy; identity never causes a rejection — an accepted record
is merged under `resolveId`, which picks the first non-empty of hex,
icao24, flight, else the stringified synthetic id (possibly the empty
string), and accepting a fresh identity appends exactly one entity. -/
theorem c2_amended (st : Aircrafts) (r : RawRecord) (mt : ℕ) (now : ℚ) :
    ((truthyQ r.lat && truthyQ r.lon) = false → update_aircrafts st [r] mt now = st) ∧
    ((truthyQ r.lat && truthyQ r.lon) = true →
      dictKeys (update_aircrafts st [r] mt now).aircrafts =
        if (dictGet st.aircrafts (resolveId r)).isSome then dictKeys st.aircrafts
        else dictKeys st.aircrafts ++ [resolveId r]) ∧
    resolveId r = resolveIdSpec r := by
  refine ⟨fun h => ?_, fun h => ?_, ?_⟩
  · simp [update_aircrafts, ingestDict, ingestStep, h]
  · simp only [update_aircrafts, ingestDict, List.foldl, ingestStep, h, Bool.not_true,
      Bool.false_eq_true, if_false]
    cases hg : dictGet st.aircrafts (resolveId r) with
    | none =>
      have hnm : resolveId r ∉ dictKeys st.aircrafts := (dictGet_eq_none_iff _ _).mp hg
      simp [hg, dictKeys_set_of_not_mem st.aircrafts _ hnm]
    | some plane =>
      have hm : resolveId r ∈ dictKeys st.aircrafts := by
        by_contra hx
        rw [(dictGet_eq_none_iff _ _).mpr hx] at hg
        exact Option.noConfusion hg
      simp [hg, dictKeys_set_of_mem st.aircrafts _ hm]
  · rcases h1 : r.hex with _ | s1 <;> rcases h2 : r.icao24 with _ | s2 <;>
      rcases h3 : r.flight with _ | s3 <;>
      simp only [resolveId, resolveIdSpec, firstNonEmptyStr, pyOrS, pyOrStr,
        RawRecord.idStr, h1, h2, h3] <;>
      split_ifs <;> simp_all

/-- C2 (amended) witness: the dropped and accepted branches at concrete
records. -/
theorem c2_amended_witness :
    (truthyQ recLatOnly.lat && truthyQ recLatOnly.lon) = false ∧
    (truthyQ recA1.lat && truthyQ recA1.lon) = true ∧
    update_aircrafts emptyAircrafts [recLatOnly] 100 0 = emptyAircrafts ∧
    dictKeys (update_aircrafts emptyAircrafts [recA1] 100 0).aircrafts =
      (if (dictGet emptyAircrafts.aircrafts (resolveId recA1)).isSome then
        dictKeys emptyAircrafts.aircrafts
      else dictKeys emptyAircrafts.aircrafts ++ [resolveId recA1]) := by
  refine ⟨by decide, by decide,
    (c2_amended emptyAircrafts recLatOnly 100 0).1 (by decide),
    (c2_amended emptyAircrafts recA1 100 0).2.1 (by decide)⟩

theorem lastN_of_le (n : ℕ) (l : List α) (h : l.length ≤ n) : lastN n l = l := by
  simp [lastN, Nat.sub_eq_zero_of_le h]

theorem lastN_length_le (n : ℕ) (l : List α) : (lastN n l).length ≤ n := by
  simp only [lastN, List.length_drop]
  omega

theorem lastN_lastN_append (n : ℕ) (l l₂ : List α) :
    lastN n (lastN n l ++ l₂) = lastN n (l ++ l₂) := by
  unfold lastN
  rw [List.drop_append_eq_append_drop, List.drop_append_eq_append_drop, List.drop_drop]
  simp only [List.length_append, List.length_drop]
  congr 1
  · congr 1
    omega
  · congr 1
    omega

theorem dequeAppend_eq_lastN (m : ℕ) (t : List α) (x : α) :
    dequeAppend m t x = lastN m (t ++ [x]) := rfl

theorem trail_foldl (ps : List (ℚ × ℚ)) (ac : Aircraft)
    (h : ac.trail.length ≤ ac.max_trails) :
    (ps.foldl (fun a p => a.update_trail p.1 p.2) ac).trail =
      lastN ac.max_trails (ac.trail ++ ps.map (fun p => (p.1, p.2, ac.altitude))) ∧
    (ps.foldl (fun a p => a.update_trail p.1 p.2) ac).altitude = ac.altitude ∧
    (ps.foldl (fun a p => a.update_trail p.1 p.2) ac).max_trails = ac.max_trails := by
  induction ps generalizing ac with
  | nil =>
    simpa using (lastN_of_le ac.max_trails ac.trail h).symm
  | cons p ps ih =>
    simp only [List.foldl_cons, List.map_cons]
    have hstep : (ac.update_trail p.1 p.2).trail =
        lastN ac.max_trails (ac.trail ++ [(p.1, p.2, ac.altitude)]) := rfl
    have hlen : (ac.update_trail p.1 p.2).trail.length ≤ (ac.update_trail p.1 p.2).max_trails := by
      rw [hstep]
      exact lastN_length_le _ _
    obtain ⟨h1, h2, h3⟩ := ih (ac.update_trail p.1 p.2) hlen
    refine ⟨?_, h2, h3⟩
    rw [h1, hstep]
    show lastN ac.max_trails (lastN ac.max_trails (ac.trail ++ [(p.1, p.2, ac.altitude)]) ++ _) = _
    rw [lastN_lastN_append, List.append_assoc]
    rfl

/-- C5: starting from an empty trail of capacity `C`, `N` trail pushes
leave exactly `min N C` points — the `C` most recent in order, oldest
first — and resizing the capacity to `m` keeps the most recent
`min (current length) m` points. -/
theorem c5_trail_capacity (C : ℕ) (ps : List (ℚ × ℚ)) (ac : Aircraft) (m : ℕ)
    (h1 : ac.trail = []) (h2 : ac.max_trails = C) :
    (ps.foldl (fun a p => a.update_trail p.1 p.2) ac).trail.length = min ps.length C ∧
    (ps.foldl (fun a p => a.update_trail p.1 p.2) ac).trail =
      (ps.map (fun p => (p.1, p.2, ac.altitude))).drop (ps.length - C) ∧
    ((ps.foldl (fun a p => a.update_trail p.1 p.2) ac).set_max_trails m).trail =
      (ps.foldl (fun a p => a.update_trail p.1 p.2) ac).trail.drop
        ((ps.foldl (fun a p => a.update_trail p.1 p.2) ac).trail.length - m) ∧
    ((ps.foldl (fun a p => a.update_trail p.1 p.2) ac).set_max_trails m).trail.length =
      min (ps.foldl (fun a p => a.update_trail p.1 p.2) ac).trail.length m := by
  have hinv : ac.trail.length ≤ ac.max_trails := by simp [h1]
  obtain ⟨ht, halt, hmax⟩ := trail_foldl ps ac hinv
  refine ⟨?_, ?_, rfl, ?_⟩
  · rw [ht, h1, h2]
    simp only [lastN, List.nil_append, List.length_drop, List.length_map]
    omega
  · rw [ht, h1, h2]
    simp [lastN]
  · simp only [Aircraft.set_max_trails, List.length_drop]
    omega

/-- C5 witness: four pushes into capacity 3 keep the three most recent
points; resizing to 2 keeps the two most recent. -/
theorem c5_trail_capacity_witness :
    acW.trail = [] ∧ acW.max_trails = 3 ∧
    ([((1:ℚ), (1:ℚ)), (2, 2), (3, 3), (4, 4)].foldl
        (fun a p => a.update_trail p.1 p.2) acW).trail.length =
      min [((1:ℚ), (1:ℚ)), (2, 2), (3, 3), (4, 4)].length 3 ∧
    ([((1:ℚ), (1:ℚ)), (2, 2), (3, 3), (4, 4)].foldl
        (fun a p => a.update_trail p.1 p.2) acW).trail =
      ([((1:ℚ), (1:ℚ)), (2, 2), (3, 3), (4, 4)].map
        (fun p => (p.1, p.2, acW.altitude))).drop
          ([((1:ℚ), (1:ℚ)), (2, 2), (3, 3), (4, 4)].length - 3) := by
  have h := c5_trail_capacity 3 [((1:ℚ), (1:ℚ)), (2, 2), (3, 3), (4, 4)] acW 2 rfl rfl
  exact ⟨rfl, rfl, h.1, h.2.1⟩

theorem filter_not_contains_eq_nil (l₁ l₂ : List String) (h : ∀ a ∈ l₁, a ∈ l₂) :
    l₁.filter (fun x => !(l₂.contains x)) = [] := by
  induction l₁ with
  | nil => rfl
  | cons a l ih =>
    have ha : (l₂.contains a) = true := List.elem_iff.mpr (h a (by simp))
    rw [List.filter_cons]
    simp only [ha, Bool.not_true, Bool.false_eq_true, if_false]
    exact ih (fun x hx => h x (by simp [hx]))

theorem deleteOne_spec (s : Aircrafts) (k : String) (hm : k ∈ dictKeys s.aircrafts) :
    ∃ s', deleteOne s k = some s' ∧ dictKeys s'.aircrafts = (dictKeys s.aircrafts).erase k := by
  cases hd : dictDel s.aircrafts k with
  | none =>
    have hs := dictDel_isSome s.aircrafts k hm
    rw [hd] at hs
    simp at hs
  | some d' =>
    refine ⟨{ s with
        aircrafts := d'
        aircraft_canvas_items := dictPop s.aircraft_canvas_items k
        aircraft_trails := dictPop s.aircraft_trails k
        prediction_lines := dictPop s.prediction_lines k
        canvas_ids := dictPop s.canvas_ids k
        label_leaders := dictPop s.label_leaders k }, ?_, ?_⟩
    · unfold deleteOne
      rw [hd]
      rfl
    · simpa using dictKeys_dictDel _ d' k hd

theorem cleanFold_isSome (td : List String) (s : Aircrafts)
    (hnd : (dictKeys s.aircrafts).Nodup) (hdup : td.Nodup)
    (hsub : ∀ k ∈ td, k ∈ dictKeys s.aircrafts) :
    (td.foldl (fun acc h => acc.bind (fun s => deleteOne s h)) (some s)).isSome := by
  induction td generalizing s with
  | nil => simp
  | cons k td ih =>
    obtain ⟨s', he, hk⟩ := deleteOne_spec s k (hsub k (by simp))
    rw [List.foldl_cons]
    have hstep : (some s).bind (fun s => deleteOne s k) = some s' := by simpa using he
    rw [hstep]
    apply ih s'
    · rw [hk]
      exact hnd.erase k
    · exact (List.nodup_cons.mp hdup).2
    · intro j hj
      rw [hk]
      have hjk : j ≠ k := fun hh => (List.nodup_cons.mp hdup).1 (hh ▸ hj)
      exact (List.mem_erase_of_ne hjk).mpr (hsub j (List.mem_cons_of_mem _ hj))

/-- C10: when every id holding renderer-side canvas items is a tracked
aircraft id (and dict keys are unique, as in CPython), the `to_delete`
list of the eviction pass has no duplicates, every listed id is a key of
the aircraft map, and the final deletion loop completes without the
`KeyError` path (`clean_data` returns a state). -/
theorem c10_clean_safe (st : Aircrafts) (now mr : ℚ)
    (hc : ∀ k ∈ dictKeys st.aircraft_canvas_items, k ∈ dictKeys st.aircrafts)
    (hnd : (dictKeys st.aircrafts).Nodup) :
    (cleanToDelete st now mr).Nodup ∧
    (∀ k ∈ cleanToDelete st now mr, k ∈ dictKeys st.aircrafts) ∧
    (clean_data st now mr).isSome := by
  have hfirst : (dictKeys st.aircraft_canvas_items).filter
      (fun h => !((dictKeys st.aircrafts).contains h)) = [] :=
    filter_not_contains_eq_nil _ _ hc
  have hsl : ((st.aircrafts.filter (fun p => evictB now mr p.2)).map Prod.fst).Sublist
      (dictKeys st.aircrafts) :=
    (List.filter_sublist st.aircrafts).map Prod.fst
  have htd : cleanToDelete st now mr =
      (st.aircrafts.filter (fun p => evictB now mr p.2)).map Prod.fst := by
    simp only [cleanToDelete]
    rw [hfirst, List.nil_append]
  have hnd2 : (cleanToDelete st now mr).Nodup := by
    rw [htd]
    exact hsl.nodup hnd
  have hsub2 : ∀ k ∈ cleanToDelete st now mr, k ∈ dictKeys st.aircrafts := by
    intro k hkk
    rw [htd] at hkk
    exact hsl.subset hkk
  exact ⟨hnd2, hsub2, cleanFold_isSome _ st hnd hnd2 hsub2⟩

set_option maxRecDepth 8000 in
/-- C10 witness: a registry whose rendered id is tracked, evaluated at a
concrete eviction input. -/
theorem c10_clean_safe_witness :
    (∀ k ∈ dictKeys stRendered.aircraft_canvas_items, k ∈ dictKeys stRendered.aircrafts) ∧
    (dictKeys stRendered.aircrafts).Nodup ∧
    (clean_data stRendered 1 200).isSome := by
  refine ⟨by decide, by decide, (c10_clean_safe stRendered 1 200 (by decide) (by decide)).2.2⟩

theorem persist_update_from_raw (ac : Aircraft) (raw : RawRecord) (now : ℚ) :
    persist (ac.update_from_raw raw now) = persist ac := rfl

theorem update_from_raw_congr {x y : Aircraft} (h : persist x = persist y)
    (raw : RawRecord) (now : ℚ) :
    x.update_from_raw raw now = y.update_from_raw raw now := by
  cases x
  cases y
  simp only [persist, Prod.mk.injEq] at h
  obtain ⟨h1, h2, h3, h4, h5, h6, h7, h8⟩ := h
  simp [Aircraft.update_from_raw, h1, h2, h3, h4, h5, h6, h7, h8]

theorem persist_foldl_update (now : ℚ) (rs : List RawRecord) (x : Aircraft) :
    persist (rs.foldl (fun a r => a.update_from_raw r now) x) = persist x := by
  induction rs generalizing x with
  | nil => rfl
  | cons r rs ih => simpa using ih (x.update_from_raw r now)

theorem update_update (a : Aircraft) (r r' : RawRecord) (n n' : ℚ) :
    (a.update_from_raw r n).update_from_raw r' n' = a.update_from_raw r' n' := rfl

theorem update_init (h : String) (r : RawRecord) (mt : ℕ) (n n' : ℚ) :
    (Aircraft.init h r mt n).update_from_raw r n' = Aircraft.init h r mt n' := rfl

theorem fold_absorb (now : ℚ) (rs : List RawRecord) (s₀ : Aircraft) (r₀ : RawRecord)
    (hs : s₀.update_from_raw r₀ now = s₀) :
    rs.foldl (fun a r => a.update_from_raw r now)
      ((rs.foldl (fun a r => a.update_from_raw r now) s₀).update_from_raw r₀ now) =
      rs.foldl (fun a r => a.update_from_raw r now) s₀ := by
  have hp : persist (rs.foldl (fun a r => a.update_from_raw r now) s₀) = persist s₀ :=
    persist_foldl_update now rs s₀
  rw [update_from_raw_congr hp r₀ now, hs]

theorem ingestOutcome_cons_some (mt : ℕ) (now : ℚ) (e : Aircraft) (k : String)
    (r₀ : RawRecord) (rs : List RawRecord) :
    ingestOutcome mt now (some e) k (r₀ :: rs) =
      ingestOutcome mt now (some (e.update_from_raw r₀ now)) k rs := by
  cases rs <;> rfl

theorem ingestOutcome_cons_none (mt : ℕ) (now : ℚ) (k : String)
    (r₀ : RawRecord) (rs : List RawRecord) :
    ingestOutcome mt now none k (r₀ :: rs) =
      ingestOutcome mt now (some (Aircraft.init k r₀ mt now)) k rs := by
  cases rs <;> rfl

theorem ingestDict_get (mt : ℕ) (now : ℚ) (data : List RawRecord) (d : Dict Aircraft)
    (k : String) :
    dictGet (ingestDict mt now d data) k =
      ingestOutcome mt now (dictGet d k) k (keptFor k data) := by
  induction data generalizing d with
  | nil => rfl
  | cons r data ih =>
    show dictGet (ingestDict mt now (ingestStep mt now d r) data) k = _
    rw [ih (ingestStep mt now d r)]
    by_cases hkept : (truthyQ r.lat && truthyQ r.lon) = true
    · by_cases hid : resolveId r = k
      · subst hid
        have hcond : keptFor (resolveId r) (r :: data) = r :: keptFor (resolveId r) data := by
          simp [keptFor, List.filter_cons, hkept]
        rw [hcond]
        cases hg : dictGet d (resolveId r) with
        | some e =>
          have hstep : ingestStep mt now d r =
              dictSet d (resolveId r) (e.update_from_raw r now) := by
            simp [ingestStep, hkept, hg]
          rw [hstep, dictGet_set_self, ingestOutcome_cons_some]
        | none =>
          have hstep : ingestStep mt now d r =
              dictSet d (resolveId r) (Aircraft.init (resolveId r) r mt now) := by
            simp [ingestStep, hkept, hg]
          rw [hstep, dictGet_set_self, ingestOutcome_cons_none]
      · have hcond : keptFor k (r :: data) = keptFor k data := by
          simp [keptFor, List.filter_cons, hkept, hid]
        have hget : dictGet (ingestStep mt now d r) k = dictGet d k := by
          have hne : k ≠ resolveId r := fun hh => hid hh.symm
          cases hg : dictGet d (resolveId r) with
          | some e =>
            have hstep : ingestStep mt now d r =
                dictSet d (resolveId r) (e.update_from_raw r now) := by
              simp [ingestStep, hkept, hg]
            rw [hstep]
            exact dictGet_set_ne d _ hne
          | none =>
            have hstep : ingestStep mt now d r =
                dictSet d (resolveId r) (Aircraft.init (resolveId r) r mt now) := by
              simp [ingestStep, hkept, hg]
            rw [hstep]
            exact dictGet_set_ne d _ hne
        rw [hcond, hget]
    · have hk' : (truthyQ r.lat && truthyQ r.lon) = false := by
        revert hkept
        cases (truthyQ r.lat && truthyQ r.lon) <;> simp
      have hcond : keptFor k (r :: data) = keptFor k data := by
        simp [keptFor, List.filter_cons, hk']
      have hstep : ingestStep mt now d r = d := by
        simp [ingestStep, hk']
      rw [hcond, hstep]

theorem mem_keys_dictSet_self (d : Dict α) (k : String) (v : α) :
    k ∈ dictKeys (dictSet d k v) := by
  by_cases h : k ∈ dictKeys d
  · rw [dictKeys_set_of_mem d v h]; exact h
  · rw [dictKeys_set_of_not_mem d v h]; simp

theorem mem_keys_dictSet_of_mem (d : Dict α) {j : String} (k : String) (v : α)
    (h : j ∈ dictKeys d) : j ∈ dictKeys (dictSet d k v) := by
  by_cases hk : k ∈ dictKeys d
  · rw [dictKeys_set_of_mem d v hk]; exact h
  · rw [dictKeys_set_of_not_mem d v hk]; exact List.mem_append_left _ h

theorem mem_keys_ingestStep (mt : ℕ) (now : ℚ) (d : Dict Aircraft) (r : RawRecord)
    {j : String} (h : j ∈ dictKeys d) : j ∈ dictKeys (ingestStep mt now d r) := by
  unfold ingestStep
  split
  · exact h
  · cases hg : dictGet d (resolveId r) with
    | some e => simp only [hg]; exact mem_keys_dictSet_of_mem d _ _ h
    | none => simp only [hg]; exact mem_keys_dictSet_of_mem d _ _ h

theorem mem_keys_ingestDict (mt : ℕ) (now : ℚ) (data : List RawRecord) (d : Dict Aircraft)
    {j : String} (h : j ∈ dictKeys d) : j ∈ dictKeys (ingestDict mt now d data) := by
  induction data generalizing d with
  | nil => exact h
  | cons r data ih => exact ih _ (mem_keys_ingestStep mt now d r h)

theorem kept_mem_keys (mt : ℕ) (now : ℚ) (data : List RawRecord) (d : Dict Aircraft)
    (r : RawRecord) (hr : r ∈ data) (hk : (truthyQ r.lat && truthyQ r.lon) = true) :
    resolveId r ∈ dictKeys (ingestDict mt now d data) := by
  induction data generalizing d with
  | nil => cases hr
  | cons r' data ih =>
    rcases List.mem_cons.mp hr with rfl | hr'
    · have hstepmem : resolveId r ∈ dictKeys (ingestStep mt now d r) := by
        unfold ingestStep
        rw [hk]
        simp only [Bool.not_true]
        cases hg : dictGet d (resolveId r) with
        | some e => simp only [Bool.false_eq_true, if_false, hg]; exact mem_keys_dictSet_self _ _ _
        | none => simp only [Bool.false_eq_true, if_false, hg]; exact mem_keys_dictSet_self _ _ _
      exact mem_keys_ingestDict mt now data _ hstepmem
    · exact ih _ hr'

theorem ingestDict_keys_of_sub (mt : ℕ) (now : ℚ) (data : List RawRecord) (d : Dict Aircraft)
    (h : ∀ r ∈ data, (truthyQ r.lat && truthyQ r.lon) = true → resolveId r ∈ dictKeys d) :
    dictKeys (ingestDict mt now d data) = dictKeys d := by
  induction data generalizing d with
  | nil => rfl
  | cons r data ih =>
    show dictKeys (ingestDict mt now (ingestStep mt now d r) data) = _
    by_cases hkept : (truthyQ r.lat && truthyQ r.lon) = true
    · have hm : resolveId r ∈ dictKeys d := h r (by simp) hkept
      have hg : ∃ e, dictGet d (resolveId r) = some e := by
        cases hgg : dictGet d (resolveId r) with
        | none => exact absurd ((dictGet_eq_none_iff _ _).mp hgg) (by simp [hm])
        | some e => exact ⟨e, rfl⟩
      obtain ⟨e, hg⟩ := hg
      have hstep : ingestStep mt now d r =
          dictSet d (resolveId r) (e.update_from_raw r now) := by
        simp [ingestStep, hkept, hg]
      have hkeys : dictKeys (ingestStep mt now d r) = dictKeys d := by
        rw [hstep]
        exact dictKeys_set_of_mem d _ hm
      rw [ih _ (fun r' hr' hk' => by rw [hkeys]; exact h r' (by simp [hr']) hk'), hkeys]
    · have hk' : (truthyQ r.lat && truthyQ r.lon) = false := by
        revert hkept
        cases (truthyQ r.lat && truthyQ r.lon) <;> simp
      have hstep : ingestStep mt now d r = d := by simp [ingestStep, hk']
      rw [hstep]
      exact ih d (fun r' hr' hkk => h r' (by simp [hr']) hkk)

theorem ingestDict_nodup (mt : ℕ) (now : ℚ) (data : List RawRecord) (d : Dict Aircraft)
    (h : (dictKeys d).Nodup) : (dictKeys (ingestDict mt now d data)).Nodup := by
  induction data generalizing d with
  | nil => exact h
  | cons r data ih =>
    refine ih _ ?_
    unfold ingestStep
    split
    · exact h
    · cases hg : dictGet d (resolveId r) with
      | some e =>
        simp only [hg]
        have hm : resolveId r ∈ dictKeys d := by
          by_contra hx
          rw [(dictGet_eq_none_iff _ _).mpr hx] at hg
          exact Option.noConfusion hg
        rw [dictKeys_set_of_mem d _ hm]
        exact h
      | none =>
        simp only [hg]
        have hm : resolveId r ∉ dictKeys d := (dictGet_eq_none_iff _ _).mp hg
        rw [dictKeys_set_of_not_mem d _ hm]
        simp [List.nodup_append, h, hm]

theorem exceptLB_update_congr {x y : Aircraft} (h : persist x = persist y)
    (r : RawRecord) (n n' : ℚ) :
    exceptLastBehavior (x.update_from_raw r n) = exceptLastBehavior (y.update_from_raw r n') := by
  cases x
  cases y
  simp only [persist, Prod.mk.injEq] at h
  obtain ⟨h1, h2, h3, h4, h5, h6, h7, h8⟩ := h
  simp [exceptLastBehavior, Aircraft.update_from_raw, h1, h2, h3, h4, h5, h6, h7, h8]

theorem exceptLB_fold (n n' : ℚ) (rs : List RawRecord) (r₀ : RawRecord) (x y : Aircraft)
    (hxy : persist x = persist y) :
    exceptLastBehavior (rs.foldl (fun a r => a.update_from_raw r n) (x.update_from_raw r₀ n)) =
      exceptLastBehavior
        (rs.foldl (fun a r => a.update_from_raw r n') (y.update_from_raw r₀ n')) := by
  induction rs generalizing r₀ x y with
  | nil => exact exceptLB_update_congr hxy r₀ n n'
  | cons r₁ rs ih =>
    rw [List.foldl_cons, List.foldl_cons, update_update, update_update]
    exact ih r₁ x y hxy

theorem last_behavior_foldl (n : ℚ) (rs : List RawRecord) (x : Aircraft)
    (hx : x.last_behavior = n) :
    (rs.foldl (fun a r => a.update_from_raw r n) x).last_behavior = n := by
  induction rs generalizing x with
  | nil => exact hx
  | cons r rs ih => exact ih _ rfl

set_option maxRecDepth 8000 in
/-- C4: the claim fails for two successive ingests of the same snapshot
at different wall clocks — the only way two ingests ever happen in the
program.  Re-ingesting `[recA1]` one second later rewrites the entity's
`last_behavior` from 0 to 1, so the registry state is not identical and
"same field values for each entity" is false. -/
theorem c4_counterexample :
    (dictGet (update_aircrafts (update_aircrafts emptyAircrafts [recA1] 100 0)
        [recA1] 100 1).aircrafts "A1").map Aircraft.last_behavior = some 1 ∧
    (dictGet (update_aircrafts emptyAircrafts [recA1] 100 0).aircrafts "A1").map
      Aircraft.last_behavior = some 0 ∧
    update_aircrafts (update_aircrafts emptyAircrafts [recA1] 100 0) [recA1] 100 1 ≠
      update_aircrafts emptyAircrafts [recA1] 100 0 := by
  have h1 : (dictGet (update_aircrafts (update_aircrafts emptyAircrafts [recA1] 100 0)
      [recA1] 100 1).aircrafts "A1").map Aircraft.last_behavior = some 1 := by decide
  have h2 : (dictGet (update_aircrafts emptyAircrafts [recA1] 100 0).aircrafts "A1").map
      Aircraft.last_behavior = some 0 := by decide
  refine ⟨h1, h2, fun heq => ?_⟩
  rw [heq, h2] at h1
  exact absurd h1 (by decide)

/-- C4 (amended): re-ingesting the same snapshot never duplicates an
entity and rewrites no field except the `last_behavior` wall-clock stamp.
Precisely: replaying a snapshot at the same wall clock reproduces the
registry state exactly; replaying it at any wall clock `now'` leaves the
entity-id list unchanged (and duplicate-free), leaves every entity equal
field-for-field except possibly `last_behavior`, leaves entities the
snapshot does not touch bitwise unchanged, and restamps `last_behavior`
to `now'` on every entity the snapshot does touch. -/
theorem c4_amended (st : Aircrafts) (data : List RawRecord) (mt : ℕ)
    (now now' : ℚ) (hnd : (dictKeys st.aircrafts).Nodup) :
    update_aircrafts (update_aircrafts st data mt now) data mt now =
      update_aircrafts st data mt now ∧
    dictKeys (update_aircrafts (update_aircrafts st data mt now) data mt now').aircrafts =
      dictKeys (update_aircrafts st data mt now).aircrafts ∧
    (dictKeys (update_aircrafts (update_aircrafts st data mt now) data mt now').aircrafts).Nodup ∧
    (∀ k, (dictGet (update_aircrafts (update_aircrafts st data mt now) data mt
        now').aircrafts k).map exceptLastBehavior =
      (dictGet (update_aircrafts st data mt now).aircrafts k).map exceptLastBehavior) ∧
    (∀ k, keptFor k data = [] →
      dictGet (update_aircrafts (update_aircrafts st data mt now) data mt now').aircrafts k =
        dictGet (update_aircrafts st data mt now).aircrafts k) ∧
    (∀ k, keptFor k data ≠ [] →
      (dictGet (update_aircrafts (update_aircrafts st data mt now) data mt
        now').aircrafts k).map Aircraft.last_behavior = some now') := by
  have hkeysY : ∀ r ∈ data, (truthyQ r.lat && truthyQ r.lon) = true →
      resolveId r ∈ dictKeys (ingestDict mt now st.aircrafts data) :=
    fun r hr hk => kept_mem_keys mt now data st.aircrafts r hr hk
  have hndY : (dictKeys (ingestDict mt now st.aircrafts data)).Nodup :=
    ingestDict_nodup mt now data st.aircrafts hnd
  have hdict : ingestDict mt now (ingestDict mt now st.aircrafts data) data =
      ingestDict mt now st.aircrafts data := by
    refine dict_ext _ _ (ingestDict_keys_of_sub mt now data _ hkeysY) ?_ ?_
    · rw [ingestDict_keys_of_sub mt now data _ hkeysY]
      exact hndY
    · intro k
      have hYk : dictGet (ingestDict mt now st.aircrafts data) k =
          ingestOutcome mt now (dictGet st.aircrafts k) k (keptFor k data) :=
        ingestDict_get mt now data st.aircrafts k
      rw [ingestDict_get mt now data _ k, hYk]
      cases hkf : keptFor k data with
      | nil => rfl
      | cons r₀ rs =>
        cases hg : dictGet st.aircrafts k with
        | some e =>
          have habs := fold_absorb now rs (e.update_from_raw r₀ now) r₀
            (update_update e r₀ r₀ now now)
          simp only [ingestOutcome, ingestOutcome_cons_some]
          rw [habs]
        | none =>
          have habs := fold_absorb now rs (Aircraft.init k r₀ mt now) r₀
            (update_init k r₀ mt now now)
          simp only [ingestOutcome, ingestOutcome_cons_some]
          rw [habs]
  refine ⟨?_, ?_, ?_, ?_, ?_, ?_⟩
  · simp only [update_aircrafts]
    rw [hdict]
  · simp only [update_aircrafts]
    exact ingestDict_keys_of_sub mt now' data _ hkeysY
  · simp only [update_aircrafts]
    rw [ingestDict_keys_of_sub mt now' data _ hkeysY]
    exact hndY
  · intro k
    simp only [update_aircrafts]
    have hYk : dictGet (ingestDict mt now st.aircrafts data) k =
        ingestOutcome mt now (dictGet st.aircrafts k) k (keptFor k data) :=
      ingestDict_get mt now data st.aircrafts k
    rw [ingestDict_get mt now' data _ k]
    cases hkf : keptFor k data with
    | nil => rfl
    | cons r₀ rs =>
      rw [hkf] at hYk
      cases hg : dictGet st.aircrafts k with
      | some e =>
        rw [hg] at hYk
        rw [hYk]
        have hpw : persist (rs.foldl (fun a r => a.update_from_raw r now)
            (e.update_from_raw r₀ now)) = persist e :=
          (persist_foldl_update now rs (e.update_from_raw r₀ now)).trans
            (persist_update_from_raw e r₀ now)
        exact congrArg some (exceptLB_fold now' now rs r₀
          (rs.foldl (fun a r => a.update_from_raw r now) (e.update_from_raw r₀ now)) e hpw)
      | none =>
        rw [hg] at hYk
        rw [hYk]
        have hpw : persist (rs.foldl (fun a r => a.update_from_raw r now)
            (Aircraft.init k r₀ mt now)) = persist (Aircraft.initBase k r₀ mt) :=
          (persist_foldl_update now rs (Aircraft.init k r₀ mt now)).trans
            (persist_update_from_raw (Aircraft.initBase k r₀ mt) r₀ now)
        exact congrArg some (exceptLB_fold now' now rs r₀
          (rs.foldl (fun a r => a.update_from_raw r now) (Aircraft.init k r₀ mt now))
          (Aircraft.initBase k r₀ mt) hpw)
  · intro k hkf0
    simp only [update_aircrafts]
    rw [ingestDict_get mt now' data _ k, hkf0]
    rfl
  · intro k hne
    simp only [update_aircrafts]
    rw [ingestDict_get mt now' data _ k]
    cases hkf : keptFor k data with
    | nil => exact absurd hkf hne
    | cons r₀ rs =>
      cases hw : dictGet (ingestDict mt now st.aircrafts data) k with
      | some w => exact congrArg some (last_behavior_foldl now' rs _ rfl)
      | none => exact congrArg some (last_behavior_foldl now' rs _ rfl)

set_option maxRecDepth 8000 in
/-- C4 (amended) witness: an empty registry (unique keys) and a
two-record snapshot, replayed at the same clock and restamped at a later
one. -/
theorem c4_amended_witness :
    (dictKeys emptyAircrafts.aircrafts).Nodup ∧
    update_aircrafts (update_aircrafts emptyAircrafts [recA1, recNoId] 100 0)
        [recA1, recNoId] 100 0 =
      update_aircrafts emptyAircrafts [recA1, recNoId] 100 0 ∧
    (keptFor "A1" [recA1, recNoId] ≠ [] →
      (dictGet (update_aircrafts (update_aircrafts emptyAircrafts [recA1, recNoId] 100 0)
          [recA1, recNoId] 100 7).aircrafts "A1").map Aircraft.last_behavior = some 7) := by
  have h := c4_amended emptyAircrafts [recA1, recNoId] 100 0 7 (by decide)
  exact ⟨by decide, h.1, h.2.2.2.2.2 "A1"⟩

/-- C6: the haversine distance is symmetric in its two points, vanishes
on identical points, and is exactly the spec's formula
`2·R·asin(√(sin²(Δlat/2) + cos(lat1)cos(lat2)sin²(Δlon/2)))` with
`R = 6371.0`. -/
theorem c6_haversine :
    (∀ lat1 lon1 lat2 lon2 : ℝ,
      haversine_km lat1 lon1 lat2 lon2 = haversine_km lat2 lon2 lat1 lon1) ∧
    (∀ lat lon : ℝ, haversine_km lat lon lat lon = 0) ∧
    (∀ lat1 lon1 lat2 lon2 : ℝ,
      haversine_km lat1 lon1 lat2 lon2 = haversineSpec lat1 lon1 lat2 lon2) := by
  have key : ∀ u v : ℝ, Real.sin (radiansR (u - v) / 2) ^ 2 =
      Real.sin (radiansR (v - u) / 2) ^ 2 := by
    intro u v
    have h : radiansR (u - v) / 2 = -(radiansR (v - u) / 2) := by
      unfold radiansR
      ring
    rw [h, Real.sin_neg, neg_sq]
  refine ⟨?_, ?_, ?_⟩
  · intro a b c d
    simp only [haversine_km]
    rw [key c a, key d b, mul_comm (Real.cos (radiansR a))]
  · intro lat lon
    simp [haversine_km, radiansR, sub_self]
  · intro a b c d
    rfl

/-- C8: the division guards of the projection/layout core are structural
branches.  `km_to_pixels` with zero max-range takes the unscaled fallback
branch (no division by the range); `compute_zoom` clamps a zero canvas
width to one pixel, so a zero width computes exactly as width one; the
relaxation direction divisor is strictly positive in both branches, and
coincident centers take the fixed jitter fallback `(1.0, 0.5)`. -/
theorem c8_division_guards :
    (∀ cw ch km : ℚ, km_to_pixels cw ch 0 km = km * (min cw ch / 2 - 10)) ∧
    (∀ lat mr : ℝ, compute_zoom lat mr 0 = compute_zoom lat mr 1) ∧
    (∀ acx acy bcx bcy : ℝ, 0 < (relax_push_direction acx acy bcx bcy).2.2) ∧
    (∀ cx cy : ℝ, relax_push_direction cx cy cx cy =
      (1.0, 0.5, Real.sqrt ((1.0:ℝ) ^ 2 + (0.5:ℝ) ^ 2))) := by
  refine ⟨?_, ?_, ?_, ?_⟩
  · intro cw ch km
    simp [km_to_pixels]
  · intro lat mr
    have hmax : max (0:ℝ) 1 = max (1:ℝ) 1 := by norm_num
    unfold compute_zoom
    rw [hmax]
  · intro acx acy bcx bcy
    simp only [relax_push_direction]
    split_ifs with h
    · show 0 < Real.sqrt ((1.0:ℝ) ^ 2 + (0.5:ℝ) ^ 2)
      rw [Real.sqrt_pos]
      norm_num
    · show 0 < Real.sqrt ((bcx - acx) ^ 2 + (bcy - acy) ^ 2)
      have h' := not_lt.mp h
      have : (0:ℝ) < 1e-3 := by norm_num
      linarith
  · intro cx cy
    simp only [relax_push_direction]
    have hcond : Real.sqrt ((cx - cx) ^ 2 + (cy - cy) ^ 2) < 1e-3 := by
      rw [sub_self]
      norm_num
    rw [if_pos hcond]

theorem pyDedupAux_not_mem_seen [DecidableEq α] (seen l : List α) {x : α}
    (h : x ∈ pyDedupAux seen l) : x ∉ seen := by
  induction l generalizing seen with
  | nil => cases h
  | cons y l ih =>
    by_cases hy : y ∈ seen
    · rw [pyDedupAux, if_pos hy] at h
      exact ih seen h
    · rw [pyDedupAux, if_neg hy] at h
      rcases List.mem_cons.mp h with rfl | h'
      · exact hy
      · intro hx
        exact ih (y :: seen) h' (List.mem_cons_of_mem _ hx)

theorem pyDedupAux_nodup [DecidableEq α] (seen l : List α) : (pyDedupAux seen l).Nodup := by
  induction l generalizing seen with
  | nil => exact List.nodup_nil
  | cons y l ih =>
    by_cases hy : y ∈ seen
    · rw [pyDedupAux, if_pos hy]
      exact ih seen
    · rw [pyDedupAux, if_neg hy]
      refine List.nodup_cons.mpr ⟨?_, ih (y :: seen)⟩
      intro hmem
      exact pyDedupAux_not_mem_seen (y :: seen) l hmem (by simp)

theorem pyDedupAux_sublist [DecidableEq α] (seen l : List α) : (pyDedupAux seen l).Sublist l := by
  induction l generalizing seen with
  | nil => exact List.Sublist.refl []
  | cons y l ih =>
    by_cases hy : y ∈ seen
    · rw [pyDedupAux, if_pos hy]
      exact (ih seen).cons y
    · rw [pyDedupAux, if_neg hy]
      exact (ih (y :: seen)).cons₂ y

theorem pyDedup_nodup [DecidableEq α] (l : List α) : (pyDedup l).Nodup :=
  pyDedupAux_nodup [] l

theorem pyDedup_sublist [DecidableEq α] (l : List α) : (pyDedup l).Sublist l :=
  pyDedupAux_sublist [] l

theorem pyDedup_cons_head [DecidableEq α] (x : α) (l : List α) :
    (pyDedup (x :: l)).head? = some x := by
  rw [pyDedup, pyDedupAux, if_neg (List.not_mem_nil x)]
  rfl

theorem sqrt_norm_bounds (c s x y r : ℝ) (hr : 0 ≤ r)
    (hcs : c ^ 2 + s ^ 2 = r ^ 2)
    (hd1 : (x - c) ^ 2 ≤ 1/4) (hd2 : (y - s) ^ 2 ≤ 1/4) :
    r - Real.sqrt (1/2) ≤ Real.sqrt (x ^ 2 + y ^ 2) ∧
    Real.sqrt (x ^ 2 + y ^ 2) ≤ r + Real.sqrt (1/2) := by
  have hq2 : Real.sqrt (1/2) ^ 2 = 1/2 := Real.sq_sqrt (by norm_num)
  have hq0 : (0:ℝ) ≤ Real.sqrt (1/2) := Real.sqrt_nonneg _
  have hE : (x - c) ^ 2 + (y - s) ^ 2 ≤ 1/2 := by linarith
  have hT2 : (c * (x - c) + s * (y - s)) ^ 2 ≤ r ^ 2 * ((x - c) ^ 2 + (y - s) ^ 2) := by
    have hid : r ^ 2 * ((x - c) ^ 2 + (y - s) ^ 2) - (c * (x - c) + s * (y - s)) ^ 2 =
        (c * (y - s) - s * (x - c)) ^ 2 := by
      linear_combination (-((x - c) ^ 2 + (y - s) ^ 2)) * hcs
    nlinarith [sq_nonneg (c * (y - s) - s * (x - c))]
  have he0 : (0:ℝ) ≤ (x - c) ^ 2 + (y - s) ^ 2 := by positivity
  have he2 : Real.sqrt ((x - c) ^ 2 + (y - s) ^ 2) ^ 2 = (x - c) ^ 2 + (y - s) ^ 2 :=
    Real.sq_sqrt he0
  have heq : Real.sqrt ((x - c) ^ 2 + (y - s) ^ 2) ≤ Real.sqrt (1/2) :=
    Real.sqrt_le_sqrt hE
  have heg : (0:ℝ) ≤ Real.sqrt ((x - c) ^ 2 + (y - s) ^ 2) := Real.sqrt_nonneg _
  have hTle : c * (x - c) + s * (y - s) ≤ r * Real.sqrt (1/2) := by
    have h1 : (c * (x - c) + s * (y - s)) ^ 2 ≤ (r * Real.sqrt (1/2)) ^ 2 := by
      have h3 : r ^ 2 * ((x - c) ^ 2 + (y - s) ^ 2) ≤ r ^ 2 * (1/2) := by
        nlinarith [hE, sq_nonneg r]
      have h4 : r ^ 2 * (1/2) = (r * Real.sqrt (1/2)) ^ 2 := by
        rw [mul_pow, hq2]
      linarith [hT2]
    calc c * (x - c) + s * (y - s) ≤ |c * (x - c) + s * (y - s)| := le_abs_self _
      _ = Real.sqrt ((c * (x - c) + s * (y - s)) ^ 2) := (Real.sqrt_sq_eq_abs _).symm
      _ ≤ Real.sqrt ((r * Real.sqrt (1/2)) ^ 2) := Real.sqrt_le_sqrt h1
      _ = |r * Real.sqrt (1/2)| := Real.sqrt_sq_eq_abs _
      _ = r * Real.sqrt (1/2) := abs_of_nonneg (mul_nonneg hr hq0)
  have hTge : -(r * Real.sqrt ((x - c) ^ 2 + (y - s) ^ 2)) ≤ c * (x - c) + s * (y - s) := by
    have h1 : (c * (x - c) + s * (y - s)) ^ 2 ≤
        (r * Real.sqrt ((x - c) ^ 2 + (y - s) ^ 2)) ^ 2 := by
      have h4 : r ^ 2 * ((x - c) ^ 2 + (y - s) ^ 2) =
          (r * Real.sqrt ((x - c) ^ 2 + (y - s) ^ 2)) ^ 2 := by
        rw [mul_pow, he2]
      linarith [hT2]
    have h2 : |c * (x - c) + s * (y - s)| ≤ r * Real.sqrt ((x - c) ^ 2 + (y - s) ^ 2) := by
      calc |c * (x - c) + s * (y - s)| =
          Real.sqrt ((c * (x - c) + s * (y - s)) ^ 2) := (Real.sqrt_sq_eq_abs _).symm
        _ ≤ Real.sqrt ((r * Real.sqrt ((x - c) ^ 2 + (y - s) ^ 2)) ^ 2) :=
          Real.sqrt_le_sqrt h1
        _ = |r * Real.sqrt ((x - c) ^ 2 + (y - s) ^ 2)| := Real.sqrt_sq_eq_abs _
        _ = r * Real.sqrt ((x - c) ^ 2 + (y - s) ^ 2) := abs_of_nonneg (mul_nonneg hr heg)
    linarith [neg_abs_le (c * (x - c) + s * (y - s))]
  constructor
  · by_cases hcase : r ≤ Real.sqrt (1/2)
    · have h0 : r - Real.sqrt (1/2) ≤ 0 := by linarith
      calc r - Real.sqrt (1/2) ≤ 0 := h0
        _ ≤ Real.sqrt (x ^ 2 + y ^ 2) := Real.sqrt_nonneg _
    · push_neg at hcase
      have hrq : 0 ≤ r - Real.sqrt (1/2) := by linarith
      have h2r : 0 ≤ 2 * r - Real.sqrt (1/2) - Real.sqrt ((x - c) ^ 2 + (y - s) ^ 2) := by
        linarith
      have hsq : (r - Real.sqrt (1/2)) ^ 2 ≤ x ^ 2 + y ^ 2 := by
        nlinarith [hTge, he2, hcs, hq2, mul_nonneg (sub_nonneg.mpr heq) h2r]
      calc r - Real.sqrt (1/2) = Real.sqrt ((r - Real.sqrt (1/2)) ^ 2) :=
          (Real.sqrt_sq hrq).symm
        _ ≤ Real.sqrt (x ^ 2 + y ^ 2) := Real.sqrt_le_sqrt hsq
  · have hsq : x ^ 2 + y ^ 2 ≤ (r + Real.sqrt (1/2)) ^ 2 := by
      nlinarith [hTle, hE, hq2, hcs]
    calc Real.sqrt (x ^ 2 + y ^ 2) ≤ Real.sqrt ((r + Real.sqrt (1/2)) ^ 2) :=
        Real.sqrt_le_sqrt hsq
      _ = r + Real.sqrt (1/2) := Real.sqrt_sq (by positivity)

theorem ptNorm_round_bounds (r θ : ℝ) (hr : 0 ≤ r) :
    r - Real.sqrt (1/2) ≤ ptNorm (round (r * Real.cos θ), round (r * Real.sin θ)) ∧
    ptNorm (round (r * Real.cos θ), round (r * Real.sin θ)) ≤ r + Real.sqrt (1/2) := by
  have hcs : (r * Real.cos θ) ^ 2 + (r * Real.sin θ) ^ 2 = r ^ 2 := by
    linear_combination (r ^ 2) * Real.sin_sq_add_cos_sq θ
  have hd1 : (((round (r * Real.cos θ) : ℤ) : ℝ) - r * Real.cos θ) ^ 2 ≤ 1/4 := by
    have h2 : |((round (r * Real.cos θ) : ℤ) : ℝ) - r * Real.cos θ| ≤ 1/2 := by
      rw [abs_sub_comm]
      exact abs_sub_round _
    nlinarith [abs_nonneg (((round (r * Real.cos θ) : ℤ) : ℝ) - r * Real.cos θ),
      sq_abs (((round (r * Real.cos θ) : ℤ) : ℝ) - r * Real.cos θ)]
  have hd2 : (((round (r * Real.sin θ) : ℤ) : ℝ) - r * Real.sin θ) ^ 2 ≤ 1/4 := by
    have h2 : |((round (r * Real.sin θ) : ℤ) : ℝ) - r * Real.sin θ| ≤ 1/2 := by
      rw [abs_sub_comm]
      exact abs_sub_round _
    nlinarith [abs_nonneg (((round (r * Real.sin θ) : ℤ) : ℝ) - r * Real.sin θ),
      sq_abs (((round (r * Real.sin θ) : ℤ) : ℝ) - r * Real.sin θ)]
  exact sqrt_norm_bounds (r * Real.cos θ) (r * Real.sin θ)
    ((round (r * Real.cos θ) : ℤ) : ℝ) ((round (r * Real.sin θ) : ℤ) : ℝ) r hr hcs hd1 hd2

theorem spiral_point_bounds (radius : ℝ) (hr : 0 ≤ radius) (steps a : ℕ) :
    radius - Real.sqrt (1/2) ≤ ptNorm (spiral_offset_point radius steps a) ∧
    ptNorm (spiral_offset_point radius steps a) ≤ radius + Real.sqrt (1/2) :=
  ptNorm_round_bounds radius ((2 * Real.pi * a) / steps) hr

theorem sqrt_half_le : Real.sqrt (1/2) ≤ 0.72 := by
  nlinarith [Real.sq_sqrt (show (0:ℝ) ≤ 1/2 by norm_num), Real.sqrt_nonneg (1/2)]

theorem sqrt_two_hundred_le : Real.sqrt 200 ≤ 14.15 := by
  nlinarith [Real.sq_sqrt (show (0:ℝ) ≤ 200 by norm_num), Real.sqrt_nonneg 200]

theorem ptNorm_default : ptNorm ((10, 10) : ℤ × ℤ) = Real.sqrt 200 := by
  show Real.sqrt (((10:ℤ) : ℝ) ^ 2 + ((10:ℤ) : ℝ) ^ 2) = Real.sqrt 200
  norm_num

/-- C9: with the default parameters (max radius 90, 16 angles, 6 rings)
the spiral offset generator — a pure function of its arguments — returns
a duplicate-free list whose first element is the default offset
`(10, 10)`, in candidate order (a sublist of the ring candidates); the
default offset is strictly nearer the anchor than every ring point, and
ring points of an inner ring are strictly nearer than those of any outer
ring (radii grow linearly, `15·(i+1)`, and rounding perturbs each point
by at most `√½`), so candidates are ordered nearest-to-farthest. -/
theorem c9_spiral_offsets (j k a b : ℕ) (hjk : j < k) :
    (generate_spiral_offsets 90 16 6).Nodup ∧
    (generate_spiral_offsets 90 16 6).head? = some (10, 10) ∧
    (generate_spiral_offsets 90 16 6).Sublist (spiral_candidates 90 16 6) ∧
    ptNorm ((10, 10) : ℤ × ℤ) <
      ptNorm (spiral_offset_point (90 / ((6:ℕ) : ℝ) * ((k : ℝ) + 1)) 16 b) ∧
    ptNorm (spiral_offset_point (90 / ((6:ℕ) : ℝ) * ((j : ℝ) + 1)) 16 a) <
      ptNorm (spiral_offset_point (90 / ((6:ℕ) : ℝ) * ((k : ℝ) + 1)) 16 b) := by
  have hcast : ((6:ℕ) : ℝ) = 6 := by norm_num
  have hj0 : (0:ℝ) ≤ (j : ℝ) := Nat.cast_nonneg j
  have hk0 : (0:ℝ) ≤ (k : ℝ) := Nat.cast_nonneg k
  have hjk' : (j : ℝ) + 1 ≤ (k : ℝ) := by exact_mod_cast Nat.succ_le_of_lt hjk
  have hrj : (0:ℝ) ≤ 90 / ((6:ℕ) : ℝ) * ((j : ℝ) + 1) := by
    rw [hcast]
    positivity
  have hrk : (0:ℝ) ≤ 90 / ((6:ℕ) : ℝ) * ((k : ℝ) + 1) := by
    rw [hcast]
    positivity
  have hbj := spiral_point_bounds (90 / ((6:ℕ) : ℝ) * ((j : ℝ) + 1)) hrj 16 a
  have hbk := spiral_point_bounds (90 / ((6:ℕ) : ℝ) * ((k : ℝ) + 1)) hrk 16 b
  have hvj : 90 / ((6:ℕ) : ℝ) * ((j : ℝ) + 1) = 15 * ((j : ℝ) + 1) := by
    rw [hcast]
    ring
  have hvk : 90 / ((6:ℕ) : ℝ) * ((k : ℝ) + 1) = 15 * ((k : ℝ) + 1) := by
    rw [hcast]
    ring
  rw [hvj] at hbj
  rw [hvk] at hbk
  refine ⟨pyDedup_nodup _, ?_, pyDedup_sublist _, ?_, ?_⟩
  · show (pyDedup (spiral_candidates 90 16 6)).head? = some (10, 10)
    rw [show spiral_candidates 90 16 6 = ((10, 10) : ℤ × ℤ) ::
      (List.range 6).flatMap (fun i =>
        (List.range 16).map
          (spiral_offset_point ((90 / ((6:ℕ) : ℝ)) * ((i : ℝ) + 1)) 16)) from rfl]
    exact pyDedup_cons_head _ _
  · rw [ptNorm_default]
    have h15 : (15:ℝ) ≤ 15 * ((k : ℝ) + 1) := by nlinarith
    linarith [sqrt_half_le, sqrt_two_hundred_le, hbk.1]
  · have hsep : 15 * ((j : ℝ) + 1) + Real.sqrt (1/2) <
        15 * ((k : ℝ) + 1) - Real.sqrt (1/2) := by
      have : 15 * ((j : ℝ) + 1) + 15 ≤ 15 * ((k : ℝ) + 1) := by nlinarith
      linarith [sqrt_half_le]
    linarith [hbj.2, hbk.1]

/-- C9 witness: the inner-ring/outer-ring ordering at concrete indices. -/
theorem c9_spiral_offsets_witness :
    (0:ℕ) < 1 ∧
    (generate_spiral_offsets 90 16 6).Nodup ∧
    (generate_spiral_offsets 90 16 6).head? = some (10, 10) ∧
    ptNorm (spiral_offset_point (90 / ((6:ℕ) : ℝ) * ((0 : ℕ) + 1 : ℝ)) 16 0) <
      ptNorm (spiral_offset_point (90 / ((6:ℕ) : ℝ) * ((1 : ℕ) + 1 : ℝ)) 16 0) := by
  have h := c9_spiral_offsets 0 1 0 0 (by decide)
  exact ⟨by decide, h.1, h.2.1, by exact_mod_cast h.2.2.2.2⟩
